import Mathlib

/-!
Verification of the failure-episode detection and classification logic of
`src/app.py` (PCB placement log analyzer).

The detector (module-level while-loop, `app.py` lines 69-110) scans one
attempt sequence of one component group: whenever attempts `i, i+1, i+2` all have
`Result != 0`, it searches from index `i+3` for the first attempt with
`Result == 0`; if found at `j`, it emits one event (Replenishment when the
stripped batch at `j` differs from the stripped batch at `i`, Halt otherwise)
and moves the cursor to `j+1`; if not found it emits nothing and moves the
cursor to `i+3`; when the window test fails it moves the cursor by 1.

The embedding below is a direct shallow translation: pandas rows become an
`Attempt` structure, `str(...).strip()` becomes `strip`, the while-loop
becomes a fuel-indexed recursion (`scanRecsF`, fuel `g.length` always
suffices), and the two global event lists become the output list of events
tagged with the loop indices that produced them.
-/

namespace PCBLog

/-- One placement attempt row after the column rename and `dropna` of
`app.py` lines 55-63: the five retained columns, with `Result` already
coerced to an integer. -/
structure Attempt where
  partNumber : String
  description : String
  reference : String
  batchNumber : String
  result : Int
deriving Repr, DecidableEq, Inhabited

/-- The Python `str.strip()` call on the batch identifier (`app.py` lines 76 and 83):
drop whitespace characters from both ends, modelled on the character list of
the string. -/
def strip (s : String) : String :=
  ⟨((s.data.dropWhile Char.isWhitespace).reverse.dropWhile Char.isWhitespace).reverse⟩

/-- The `failure_meanings` dictionary of `app.py` lines 8-15. -/
def failure_meanings (c : Int) : Option String :=
  if c = 2 then some "Rejected by vision before electrical test"
  else if c = 3 then some "Rejected by vision after electrical test"
  else if c = 4 then some "Rejected by electrical test"
  else if c = 5 then some "Not placed (lost after electrical test)"
  else if c = 6 then some "Not taken by the machine"
  else if c = 7 then some "Rejected by vision before pick-up"
  else none

/-- `failure_meanings.get(main_fail, "Unknown failure")` (`app.py` lines 92
and 102). -/
def mainFailLabel (c : Int) : String :=
  (failure_meanings c).getD "Unknown failure"

/-- `group.loc[i, ...]`: row access inside the detector loop. All accesses in
the source are in bounds (guarded by `i <= n - 3` and by the index returned by
the pass search); out-of-range access yields the default row, which no code
path reaches. -/
def attemptAt (g : List Attempt) (i : Nat) : Attempt :=
  g.getD i default

/-- Position (counted from the head of `l`) of the first attempt with
`Result == 0`, or `none`. -/
def findPassIdx : List Attempt → Option Nat
  | [] => none
  | a :: rest => if a.result = 0 then some 0 else (findPassIdx rest).map (· + 1)

/-- `future_pass = group.loc[i:][group["Result"] == 0]` followed by
`future_pass.index[0]` (`app.py` lines 80-82, called with `i+3`): index of the
first attempt at position `>= i` with `Result == 0`, or `none` when
`future_pass` is empty. -/
def findPassFrom (g : List Attempt) (i : Nat) : Option Nat :=
  (findPassIdx (g.drop i)).map (· + i)

/-- The two kinds of emitted event: the `all_halts` and `replenishments`
accumulators of `app.py` lines 22-23. -/
inductive EventKind where
  | halt
  | replenishment
deriving Repr, DecidableEq

/-- One appended event dict (`app.py` lines 85-93 / 95-103), restricted to the
per-row fields (`ProductName` and `File` are per-file tags outside the
detector). -/
structure Event where
  kind : EventKind
  partNumber : String
  description : String
  reference : String
  batchNumber : String
  mainFailType : String
deriving Repr, DecidableEq

/-- An emitted event together with the loop indices that produced it:
`startIdx` is the cursor `i` at which the 3-failure window matched and
`resolveIdx` is `next_pass_idx`. -/
structure EpisodeRec where
  startIdx : Nat
  resolveIdx : Nat
  event : Event
deriving Repr, DecidableEq

/-- The event built at cursor `i` with resolving pass at `j`:
`batch_here = str(...).strip()`, `main_fail = group.loc[i, "Result"]`,
Replenishment iff `next_batch != batch_here` (`app.py` lines 76-103). -/
def mkEpisodeRec (g : List Attempt) (i j : Nat) : EpisodeRec :=
  let a := attemptAt g i
  let batchHere := strip a.batchNumber
  let nextBatch := strip (attemptAt g j).batchNumber
  { startIdx := i
    resolveIdx := j
    event :=
      { kind := if nextBatch ≠ batchHere then .replenishment else .halt
        partNumber := a.partNumber
        description := a.description
        reference := a.reference
        batchNumber := batchHere
        mainFailType := mainFailLabel a.result } }

/-- The detector while-loop (`app.py` lines 73-110), as a fuel-indexed
recursion; every cursor move of the source strictly increases `i`, so fuel
`g.length - i` (hence `g.length`) always suffices. -/
def scanRecsF : Nat → List Attempt → Nat → List EpisodeRec
  | 0, _, _ => []
  | fuel + 1, g, i =>
    if i + 3 ≤ g.length then
      if (attemptAt g i).result ≠ 0 ∧ (attemptAt g (i + 1)).result ≠ 0 ∧
          (attemptAt g (i + 2)).result ≠ 0 then
        match findPassFrom g (i + 3) with
        | some j => mkEpisodeRec g i j :: scanRecsF fuel g (j + 1)
        | none => scanRecsF fuel g (i + 3)
      else scanRecsF fuel g (i + 1)
    else []

/-- The detector run from cursor `i` with sufficient fuel. -/
def scanRecs (g : List Attempt) (i : Nat) : List EpisodeRec :=
  scanRecsF g.length g i

/-- All episode records for one component group. -/
def detectRecs (g : List Attempt) : List EpisodeRec :=
  scanRecs g 0

/-- The events the detector appends for one component group, in order. -/
def detect (g : List Attempt) : List Event :=
  (detectRecs g).map (·.event)

/-- `df_relevant.groupby("PartNumber")` (`app.py` line 69): the analyzed
sequence for one group key is the subsequence of rows whose `PartNumber`
equals the key, in original row order. -/
def groupForPart (rows : List Attempt) (key : String) : List Attempt :=
  rows.filter (fun a => a.partNumber = key)

/-- Modelled from the spec: the data-flow section of the spec says attempts are
grouped by `component_id`, "identity of the board position" — the `Reference`
column — which is absent from the grouping step of the source; stated here only to
compare with `groupForPart`. -/
def groupForReferenceSpec (rows : List Attempt) (key : String) : List Attempt :=
  rows.filter (fun a => a.reference = key)

/-- One raw CSV row restricted to the five used columns, before `dropna()`;
`none` models a missing (NaN) cell, and a present result cell carries its raw
string content. -/
structure RawRow where
  partNumber : Option String
  description : Option String
  reference : Option String
  batchNumber : Option String
  result : Option String
deriving Repr, DecidableEq

/-- Decimal-digit accumulation over the character list of a cell; `none` as
soon as a non-digit appears. -/
def parseNatAux : List Char → Nat → Option Nat
  | [], acc => some acc
  | c :: cs, acc =>
    if c.isDigit then parseNatAux cs (acc * 10 + (c.toNat - 48)) else none

/-- `pd.to_numeric(..., errors="coerce")` on one present cell, modelled as
integer parsing (result codes in these logs are small integers): `none` when
the cell is empty, a bare minus sign, or contains a non-digit. -/
def toNumericInt (s : String) : Option Int :=
  match s.data with
  | [] => none
  | '-' :: cs =>
    if cs.isEmpty then none else (parseNatAux cs 0).map (fun n => -(n : Int))
  | cs => (parseNatAux cs 0).map (fun n => (n : Int))

/-- `dropna()` followed by `pd.to_numeric(...).fillna(0).astype(int)`
(`app.py` lines 62-63) on one row: the row is kept only when all five cells
are present, and a present but non-numeric result cell coerces to `0`. -/
def buildAttempt (r : RawRow) : Option Attempt :=
  match r.partNumber, r.description, r.reference, r.batchNumber, r.result with
  | some p, some d, some rf, some b, some res =>
    some { partNumber := p, description := d, reference := rf, batchNumber := b,
           result := (toNumericInt res).getD 0 }
  | _, _, _, _, _ => none

/-- The attempt stream of one file: rows surviving `dropna()` in order. -/
def buildStream (rows : List RawRow) : List Attempt :=
  rows.filterMap buildAttempt

/-- Two attempts equal in every field the detector reads, up to
leading/trailing whitespace of the batch identifier. -/
def WsEquiv (a b : Attempt) : Prop :=
  a.partNumber = b.partNumber ∧ a.description = b.description ∧
  a.reference = b.reference ∧ strip a.batchNumber = strip b.batchNumber ∧
  a.result = b.result

instance (a b : Attempt) : Decidable (WsEquiv a b) := by
  unfold WsEquiv
  infer_instance

/-- Concrete failing attempt (code 2) on batch `B1`, for witnesses. -/
def failB1 : Attempt :=
  ⟨"P1", "Cap 100nF", "C7", "B1", 2⟩

/-- Concrete passing attempt on batch `B1`, for witnesses. -/
def passB1 : Attempt :=
  ⟨"P1", "Cap 100nF", "C7", "B1", 0⟩

/-- Concrete passing attempt on batch `B2`, for witnesses. -/
def passB2 : Attempt :=
  ⟨"P1", "Cap 100nF", "C7", "B2", 0⟩

/-- Concrete failing attempt with an outcome code outside the known table,
for witnesses. -/
def failUnknown : Attempt :=
  ⟨"P1", "Cap 100nF", "C7", "B1", 9⟩

/-- Three failures on `B1` resolved on a different batch. -/
def exReplenish : List Attempt :=
  [failB1, failB1, failB1, passB2]

/-- Three failures on `B1` resolved on the same batch. -/
def exHalt : List Attempt :=
  [failB1, failB1, failB1, passB1]

/-- Three failures with no resolving attempt at all. -/
def exAllFail : List Attempt :=
  [failB1, failB1, failB1]

/-- Same as `exHalt` but with whitespace-padded batch identifiers. -/
def exHaltPadded : List Attempt :=
  [⟨"P1", "Cap 100nF", "C7", " B1", 2⟩, ⟨"P1", "Cap 100nF", "C7", "B1 ", 2⟩,
   failB1, ⟨"P1", "Cap 100nF", "C7", "  B1", 0⟩]

/-- An episode whose first failing attempt carries the unknown code 9. -/
def exUnknownCode : List Attempt :=
  [failUnknown, failB1, failB1, passB1]

/-- Failing attempt of part `P1` at board position `C1`. -/
def rowRefC1 : Attempt :=
  ⟨"P1", "Cap 100nF", "C1", "B1", 2⟩

/-- Failing attempt of the same part `P1` at the other board position `C2`. -/
def rowRefC2 : Attempt :=
  ⟨"P1", "Cap 100nF", "C2", "B1", 2⟩

/-- Passing attempt of part `P1` at board position `C2`. -/
def rowRefC2pass : Attempt :=
  ⟨"P1", "Cap 100nF", "C2", "B1", 0⟩

/-- Four rows sharing one part number but split across two board-position
references; the episode only exists when they are analyzed as one sequence. -/
def rowsMixedRef : List Attempt :=
  [rowRefC1, rowRefC1, rowRefC2, rowRefC2pass]

/-- A raw row whose identity cells are all present but whose outcome cell is
missing. -/
def rowMissingOutcome : RawRow :=
  ⟨some "P1", some "Cap 100nF", some "C7", some "B1", none⟩

/-! ## Basic facts about row access and the pass search -/

theorem mkEpisodeRec_startIdx (g : List Attempt) (i j : Nat) :
    (mkEpisodeRec g i j).startIdx = i := rfl

theorem mkEpisodeRec_resolveIdx (g : List Attempt) (i j : Nat) :
    (mkEpisodeRec g i j).resolveIdx = j := rfl

theorem mkEpisodeRec_kind (g : List Attempt) (i j : Nat) :
    (mkEpisodeRec g i j).event.kind =
      if strip (attemptAt g j).batchNumber ≠ strip (attemptAt g i).batchNumber
      then EventKind.replenishment else EventKind.halt := rfl

theorem mkEpisodeRec_mainFailType (g : List Attempt) (i j : Nat) :
    (mkEpisodeRec g i j).event.mainFailType = mainFailLabel (attemptAt g i).result := rfl

theorem attemptAt_cons_zero (a : Attempt) (l : List Attempt) :
    attemptAt (a :: l) 0 = a := rfl

theorem attemptAt_cons_succ (a : Attempt) (l : List Attempt) (m : Nat) :
    attemptAt (a :: l) (m + 1) = attemptAt l m := rfl

theorem attemptAt_drop (g : List Attempt) (i m : Nat) :
    attemptAt (g.drop i) m = attemptAt g (i + m) := by
  unfold attemptAt
  by_cases h : i + m < g.length
  · rw [List.getD_eq_getElem _ _ (by simp; omega), List.getD_eq_getElem _ _ h]
    simp
  · rw [List.getD_eq_default _ _ (by simp; omega), List.getD_eq_default _ _ (by omega)]

theorem findPassIdx_some :
    ∀ {l : List Attempt} {k : Nat}, findPassIdx l = some k →
      k < l.length ∧ (attemptAt l k).result = 0 ∧
      ∀ m, m < k → (attemptAt l m).result ≠ 0 := by
  intro l
  induction l with
  | nil => intro k h; simp [findPassIdx] at h
  | cons a rest ih =>
    intro k h
    by_cases ha : a.result = 0
    · simp [findPassIdx, ha] at h
      subst h
      exact ⟨by simp, ha, fun m hm => by omega⟩
    · simp [findPassIdx, ha] at h
      obtain ⟨k0, hk0, rfl⟩ := h
      obtain ⟨h1, h2, h3⟩ := ih hk0
      refine ⟨by simp; omega, by simpa [attemptAt_cons_succ] using h2, ?_⟩
      intro m hm
      cases m with
      | zero => simpa [attemptAt_cons_zero] using ha
      | succ m => simpa [attemptAt_cons_succ] using h3 m (by omega)

theorem findPassIdx_none :
    ∀ {l : List Attempt}, findPassIdx l = none →
      ∀ m, m < l.length → (attemptAt l m).result ≠ 0 := by
  intro l
  induction l with
  | nil => intro _ m hm; simp at hm
  | cons a rest ih =>
    intro h m hm
    by_cases ha : a.result = 0
    · simp [findPassIdx, ha] at h
    · simp [findPassIdx, ha] at h
      cases m with
      | zero => simpa [attemptAt_cons_zero] using ha
      | succ m =>
        rw [attemptAt_cons_succ]
        exact ih h m (by simpa using hm)

theorem findPassFrom_some {g : List Attempt} {i j : Nat}
    (h : findPassFrom g i = some j) :
    i ≤ j ∧ j < g.length ∧ (attemptAt g j).result = 0 ∧
      ∀ k, i ≤ k → k < j → (attemptAt g k).result ≠ 0 := by
  unfold findPassFrom at h
  simp only [Option.map_eq_some'] at h
  obtain ⟨k, hk, rfl⟩ := h
  obtain ⟨h1, h2, h3⟩ := findPassIdx_some hk
  rw [List.length_drop] at h1
  rw [attemptAt_drop] at h2
  refine ⟨by omega, by omega, by rwa [Nat.add_comm i k] at h2, ?_⟩
  intro m him hmk
  have := h3 (m - i) (by omega)
  rwa [attemptAt_drop, Nat.add_sub_cancel' him] at this

theorem findPassFrom_none {g : List Attempt} {i : Nat}
    (h : findPassFrom g i = none) :
    ∀ k, i ≤ k → k < g.length → (attemptAt g k).result ≠ 0 := by
  unfold findPassFrom at h
  simp only [Option.map_eq_none'] at h
  intro k hik hk
  have := findPassIdx_none h (k - i) (by rw [List.length_drop]; omega)
  rwa [attemptAt_drop, Nat.add_sub_cancel' hik] at this

theorem findPassFrom_complete {g : List Attempt} {i j : Nat}
    (hjlt : j < g.length) (hij : i ≤ j)
    (hpass : (attemptAt g j).result = 0)
    (hfirst : ∀ k, k < j → i ≤ k → (attemptAt g k).result ≠ 0) :
    findPassFrom g i = some j := by
  cases h : findPassFrom g i with
  | none => exact absurd hpass (findPassFrom_none h j hij hjlt)
  | some j' =>
    obtain ⟨h1, h2, h3, h4⟩ := findPassFrom_some h
    rcases Nat.lt_trichotomy j' j with hlt | heq | hgt
    · exact absurd h3 (hfirst j' hlt h1)
    · rw [heq]
    · exact absurd hpass (h4 j hij hgt)

/-! ## Unfolding equations for the scan loop

The source loop strictly increases the cursor on every branch, so any fuel of
at least `g.length - i` yields the same result; the four lemmas below restate
the loop body as equations on `scanRecs` with the fuel discharged once and
for all. -/

theorem scanRecsF_stable (g : List Attempt) :
    ∀ f1 f2 i, g.length ≤ i + f1 → g.length ≤ i + f2 →
      scanRecsF f1 g i = scanRecsF f2 g i := by
  intro f1
  induction f1 with
  | zero =>
    intro f2 i h1 h2
    cases f2 with
    | zero => rfl
    | succ f2 =>
      simp only [scanRecsF]
      rw [if_neg (by omega)]
  | succ f1 ih =>
    intro f2 i h1 h2
    cases f2 with
    | zero =>
      simp only [scanRecsF]
      rw [if_neg (by omega)]
    | succ f2 =>
      simp only [scanRecsF]
      by_cases h3 : i + 3 ≤ g.length
      · rw [if_pos h3, if_pos h3]
        by_cases hf : (attemptAt g i).result ≠ 0 ∧ (attemptAt g (i + 1)).result ≠ 0 ∧
            (attemptAt g (i + 2)).result ≠ 0
        · rw [if_pos hf, if_pos hf]
          cases hj : findPassFrom g (i + 3) with
          | some j =>
            have hb := findPassFrom_some hj
            dsimp only
            rw [ih f2 (j + 1) (by omega) (by omega)]
          | none =>
            dsimp only
            rw [ih f2 (i + 3) (by omega) (by omega)]
        · rw [if_neg hf, if_neg hf, ih f2 (i + 1) (by omega) (by omega)]
      · rw [if_neg h3, if_neg h3]

theorem scanRecs_stop {g : List Attempt} {i : Nat} (h3 : ¬ i + 3 ≤ g.length) :
    scanRecs g i = [] := by
  unfold scanRecs
  cases hL : g.length with
  | zero => rfl
  | succ f =>
    simp only [scanRecsF]
    rw [if_neg (by omega)]

theorem scanRecs_skip {g : List Attempt} {i : Nat} (h3 : i + 3 ≤ g.length)
    (hf : ¬ ((attemptAt g i).result ≠ 0 ∧ (attemptAt g (i + 1)).result ≠ 0 ∧
      (attemptAt g (i + 2)).result ≠ 0)) :
    scanRecs g i = scanRecs g (i + 1) := by
  unfold scanRecs
  cases hL : g.length with
  | zero => omega
  | succ f =>
    conv_lhs => simp only [scanRecsF]
    rw [if_pos (by omega), if_neg hf, ← hL]
    exact scanRecsF_stable g f g.length (i + 1) (by omega) (by omega)

theorem scanRecs_emit {g : List Attempt} {i j : Nat} (h3 : i + 3 ≤ g.length)
    (hf : (attemptAt g i).result ≠ 0 ∧ (attemptAt g (i + 1)).result ≠ 0 ∧
      (attemptAt g (i + 2)).result ≠ 0)
    (hj : findPassFrom g (i + 3) = some j) :
    scanRecs g i = mkEpisodeRec g i j :: scanRecs g (j + 1) := by
  have hb := findPassFrom_some hj
  unfold scanRecs
  cases hL : g.length with
  | zero => omega
  | succ f =>
    conv_lhs => simp only [scanRecsF]
    rw [if_pos (by omega), if_pos hf, hj]
    simp only []
    rw [← hL]
    congr 1
    exact scanRecsF_stable g f g.length (j + 1) (by omega) (by omega)

theorem scanRecs_noPass {g : List Attempt} {i : Nat} (h3 : i + 3 ≤ g.length)
    (hf : (attemptAt g i).result ≠ 0 ∧ (attemptAt g (i + 1)).result ≠ 0 ∧
      (attemptAt g (i + 2)).result ≠ 0)
    (hj : findPassFrom g (i + 3) = none) :
    scanRecs g i = scanRecs g (i + 3) := by
  unfold scanRecs
  cases hL : g.length with
  | zero => omega
  | succ f =>
    conv_lhs => simp only [scanRecsF]
    rw [if_pos (by omega), if_pos hf, hj]
    simp only []
    rw [← hL]
    exact scanRecsF_stable g f g.length (i + 3) (by omega) (by omega)

/-! ## Structural invariants of the scan -/

theorem mem_scanRecs_aux (g : List Attempt) :
    ∀ n i, g.length ≤ i + n → ∀ e ∈ scanRecs g i,
      i ≤ e.startIdx ∧ e.startIdx + 3 ≤ e.resolveIdx ∧ e.resolveIdx < g.length ∧
      (attemptAt g e.resolveIdx).result = 0 := by
  intro n
  induction n with
  | zero =>
    intro i hi e he
    rw [scanRecs_stop (by omega)] at he
    simp at he
  | succ n ih =>
    intro i hi e he
    by_cases h3 : i + 3 ≤ g.length
    · by_cases hf : (attemptAt g i).result ≠ 0 ∧ (attemptAt g (i + 1)).result ≠ 0 ∧
          (attemptAt g (i + 2)).result ≠ 0
      · cases hj : findPassFrom g (i + 3) with
        | some j =>
          obtain ⟨hb1, hb2, hb3, _⟩ := findPassFrom_some hj
          rw [scanRecs_emit h3 hf hj] at he
          rcases List.mem_cons.mp he with rfl | he'
          · refine ⟨?_, ?_, ?_, ?_⟩ <;>
              simp only [mkEpisodeRec_startIdx, mkEpisodeRec_resolveIdx] <;> omega
          · have h' := ih (j + 1) (by omega) e he'
            exact ⟨by omega, h'.2⟩
        | none =>
          rw [scanRecs_noPass h3 hf hj] at he
          have h' := ih (i + 3) (by omega) e he
          exact ⟨by omega, h'.2⟩
      · rw [scanRecs_skip h3 hf] at he
        have h' := ih (i + 1) (by omega) e he
        exact ⟨by omega, h'.2⟩
    · rw [scanRecs_stop h3] at he
      simp at he

theorem mem_scanRecs {g : List Attempt} {i : Nat} {e : EpisodeRec}
    (he : e ∈ scanRecs g i) :
    i ≤ e.startIdx ∧ e.startIdx + 3 ≤ e.resolveIdx ∧ e.resolveIdx < g.length ∧
      (attemptAt g e.resolveIdx).result = 0 :=
  mem_scanRecs_aux g g.length i (by omega) e he

theorem scanRecs_pairwise_aux (g : List Attempt) :
    ∀ n i, g.length ≤ i + n →
      (scanRecs g i).Pairwise (fun e1 e2 => e1.resolveIdx < e2.startIdx) := by
  intro n
  induction n with
  | zero =>
    intro i hi
    rw [scanRecs_stop (by omega)]
    exact List.Pairwise.nil
  | succ n ih =>
    intro i hi
    by_cases h3 : i + 3 ≤ g.length
    · by_cases hf : (attemptAt g i).result ≠ 0 ∧ (attemptAt g (i + 1)).result ≠ 0 ∧
          (attemptAt g (i + 2)).result ≠ 0
      · cases hj : findPassFrom g (i + 3) with
        | some j =>
          obtain ⟨hb1, hb2, _, _⟩ := findPassFrom_some hj
          rw [scanRecs_emit h3 hf hj]
          refine List.Pairwise.cons ?_ (ih (j + 1) (by omega))
          intro e' he'
          have h' := mem_scanRecs he'
          show j < e'.startIdx
          omega
        | none =>
          rw [scanRecs_noPass h3 hf hj]
          exact ih (i + 3) (by omega)
      · rw [scanRecs_skip h3 hf]
        exact ih (i + 1) (by omega)
    · rw [scanRecs_stop h3]
      exact List.Pairwise.nil

theorem scanRecs_length_le_aux (g : List Attempt) :
    ∀ n i, g.length ≤ i + n → (scanRecs g i).length ≤ (g.length - i) / 4 := by
  intro n
  induction n with
  | zero =>
    intro i hi
    rw [scanRecs_stop (by omega)]
    simp
  | succ n ih =>
    intro i hi
    by_cases h3 : i + 3 ≤ g.length
    · by_cases hf : (attemptAt g i).result ≠ 0 ∧ (attemptAt g (i + 1)).result ≠ 0 ∧
          (attemptAt g (i + 2)).result ≠ 0
      · cases hj : findPassFrom g (i + 3) with
        | some j =>
          obtain ⟨hb1, hb2, _, _⟩ := findPassFrom_some hj
          rw [scanRecs_emit h3 hf hj]
          have h' := ih (j + 1) (by omega)
          simp only [List.length_cons]
          omega
        | none =>
          rw [scanRecs_noPass h3 hf hj]
          have h' := ih (i + 3) (by omega)
          omega
      · rw [scanRecs_skip h3 hf]
        have h' := ih (i + 1) (by omega)
        omega
    · rw [scanRecs_stop h3]
      simp

theorem scanRecs_all_fail_aux (g : List Attempt) :
    ∀ n i, g.length ≤ i + n →
      (∀ k, i ≤ k → k < g.length → (attemptAt g k).result ≠ 0) →
      scanRecs g i = [] := by
  intro n
  induction n with
  | zero =>
    intro i hi _
    exact scanRecs_stop (by omega)
  | succ n ih =>
    intro i hi hall
    by_cases h3 : i + 3 ≤ g.length
    · have hf : (attemptAt g i).result ≠ 0 ∧ (attemptAt g (i + 1)).result ≠ 0 ∧
          (attemptAt g (i + 2)).result ≠ 0 :=
        ⟨hall i (by omega) (by omega), hall (i + 1) (by omega) (by omega),
          hall (i + 2) (by omega) (by omega)⟩
      cases hj : findPassFrom g (i + 3) with
      | some j =>
        obtain ⟨hb1, hb2, hb3, _⟩ := findPassFrom_some hj
        exact absurd hb3 (hall j (by omega) hb2)
      | none =>
        rw [scanRecs_noPass h3 hf hj]
        exact ih (i + 3) (by omega) fun k hk hk2 => hall k (by omega) hk2
    · exact scanRecs_stop h3

/-! ## The scan reads attempts only through the fields of `WsEquiv` -/

theorem findPassFrom_congr {g1 g2 : List Attempt} (hlen : g1.length = g2.length)
    (hres : ∀ k, k < g1.length → (attemptAt g1 k).result = (attemptAt g2 k).result)
    (i : Nat) : findPassFrom g1 i = findPassFrom g2 i := by
  cases hj : findPassFrom g1 i with
  | some j =>
    obtain ⟨h1, h2, h3, h4⟩ := findPassFrom_some hj
    refine (findPassFrom_complete (by omega) h1 ?_ ?_).symm
    · rw [← hres j h2]
      exact h3
    · intro k hk hik
      rw [← hres k (by omega)]
      exact h4 k hik hk
  | none =>
    cases hj2 : findPassFrom g2 i with
    | none => rfl
    | some j2 =>
      obtain ⟨h1, h2, h3, _⟩ := findPassFrom_some hj2
      have hne := findPassFrom_none hj j2 h1 (by omega)
      rw [hres j2 (by omega)] at hne
      exact absurd h3 hne

theorem mkEpisodeRec_congr {g1 g2 : List Attempt} {i j : Nat}
    (hi : WsEquiv (attemptAt g1 i) (attemptAt g2 i))
    (hj : WsEquiv (attemptAt g1 j) (attemptAt g2 j)) :
    mkEpisodeRec g1 i j = mkEpisodeRec g2 i j := by
  obtain ⟨hp, hd, hr, hb, hres⟩ := hi
  obtain ⟨_, _, _, hb2, _⟩ := hj
  simp only [mkEpisodeRec, hp, hd, hr, hb, hres, hb2]

theorem scanRecs_congr_aux (g1 g2 : List Attempt) (hlen : g1.length = g2.length)
    (heq : ∀ k, k < g1.length → WsEquiv (attemptAt g1 k) (attemptAt g2 k)) :
    ∀ n i, g1.length ≤ i + n → scanRecs g1 i = scanRecs g2 i := by
  have hres : ∀ k, k < g1.length → (attemptAt g1 k).result = (attemptAt g2 k).result :=
    fun k hk => (heq k hk).2.2.2.2
  intro n
  induction n with
  | zero =>
    intro i hi
    rw [scanRecs_stop (by omega), scanRecs_stop (by omega)]
  | succ n ih =>
    intro i hi
    by_cases h3 : i + 3 ≤ g1.length
    · by_cases hf : (attemptAt g1 i).result ≠ 0 ∧ (attemptAt g1 (i + 1)).result ≠ 0 ∧
          (attemptAt g1 (i + 2)).result ≠ 0
      · have hf2 : (attemptAt g2 i).result ≠ 0 ∧ (attemptAt g2 (i + 1)).result ≠ 0 ∧
            (attemptAt g2 (i + 2)).result ≠ 0 := by
          refine ⟨?_, ?_, ?_⟩ <;> rw [← hres _ (by omega)]
          · exact hf.1
          · exact hf.2.1
          · exact hf.2.2
        cases hj : findPassFrom g1 (i + 3) with
        | some j =>
          obtain ⟨hb1, hb2, _, _⟩ := findPassFrom_some hj
          have hj2 : findPassFrom g2 (i + 3) = some j := by
            rw [← findPassFrom_congr hlen hres]
            exact hj
          rw [scanRecs_emit h3 hf hj, scanRecs_emit (by omega) hf2 hj2,
            mkEpisodeRec_congr (heq i (by omega)) (heq j (by omega)),
            ih (j + 1) (by omega)]
        | none =>
          have hj2 : findPassFrom g2 (i + 3) = none := by
            rw [← findPassFrom_congr hlen hres]
            exact hj
          rw [scanRecs_noPass h3 hf hj, scanRecs_noPass (by omega) hf2 hj2]
          exact ih (i + 3) (by omega)
      · have hf2 : ¬ ((attemptAt g2 i).result ≠ 0 ∧ (attemptAt g2 (i + 1)).result ≠ 0 ∧
            (attemptAt g2 (i + 2)).result ≠ 0) := by
          intro hc
          refine hf ⟨?_, ?_, ?_⟩ <;> rw [hres _ (by omega)]
          · exact hc.1
          · exact hc.2.1
          · exact hc.2.2
        rw [scanRecs_skip h3 hf, scanRecs_skip (by omega) hf2]
        exact ih (i + 1) (by omega)
    · rw [scanRecs_stop h3, scanRecs_stop (by omega)]

/-! ## The claims -/

/-- Claim C1: when an episode begins at cursor `i` (attempts `i, i+1, i+2`
exist and all fail) and `j` is the first index `≥ i+3` whose attempt has
outcome 0, the detector emits exactly one event for the episode — with start
`i` and resolving index `j`, classified Replenishment iff the trimmed batch at
`j` differs from the trimmed batch at `i` and Halt iff they agree — and the
cursor advances to `j+1`, so every later event starts at an index `≥ j+1`. -/
theorem resolved_episode_emits_single_event (g : List Attempt) (i j : Nat)
    (h3 : i + 3 ≤ g.length)
    (hf1 : (attemptAt g i).result ≠ 0) (hf2 : (attemptAt g (i + 1)).result ≠ 0)
    (hf3 : (attemptAt g (i + 2)).result ≠ 0)
    (hjlt : j < g.length) (hij : i + 3 ≤ j)
    (hpass : (attemptAt g j).result = 0)
    (hfirst : ∀ k, k < j → i + 3 ≤ k → (attemptAt g k).result ≠ 0) :
    scanRecs g i = mkEpisodeRec g i j :: scanRecs g (j + 1) ∧
    (mkEpisodeRec g i j).startIdx = i ∧
    (mkEpisodeRec g i j).resolveIdx = j ∧
    ((mkEpisodeRec g i j).event.kind = EventKind.replenishment ↔
      strip (attemptAt g j).batchNumber ≠ strip (attemptAt g i).batchNumber) ∧
    ((mkEpisodeRec g i j).event.kind = EventKind.halt ↔
      strip (attemptAt g j).batchNumber = strip (attemptAt g i).batchNumber) ∧
    ∀ e ∈ scanRecs g (j + 1), j + 1 ≤ e.startIdx := by
  have hjfind : findPassFrom g (i + 3) = some j :=
    findPassFrom_complete hjlt hij hpass fun k hk hik => hfirst k hk hik
  refine ⟨scanRecs_emit h3 ⟨hf1, hf2, hf3⟩ hjfind, rfl, rfl, ?_, ?_, ?_⟩
  · rw [mkEpisodeRec_kind]
    by_cases hb : strip (attemptAt g j).batchNumber = strip (attemptAt g i).batchNumber
    · simp [hb]
    · simp [hb]
  · rw [mkEpisodeRec_kind]
    by_cases hb : strip (attemptAt g j).batchNumber = strip (attemptAt g i).batchNumber
    · simp [hb]
    · simp [hb]
  · intro e he
    exact (mem_scanRecs he).1

/-- Witness for C1 at the concrete sequence `exReplenish` with `i = 0`,
`j = 3`. -/
theorem resolved_episode_emits_single_event_witness :
    scanRecs exReplenish 0 = mkEpisodeRec exReplenish 0 3 :: scanRecs exReplenish 4 ∧
    (mkEpisodeRec exReplenish 0 3).startIdx = 0 ∧
    (mkEpisodeRec exReplenish 0 3).resolveIdx = 3 ∧
    ((mkEpisodeRec exReplenish 0 3).event.kind = EventKind.replenishment ↔
      strip (attemptAt exReplenish 3).batchNumber ≠ strip (attemptAt exReplenish 0).batchNumber) ∧
    ((mkEpisodeRec exReplenish 0 3).event.kind = EventKind.halt ↔
      strip (attemptAt exReplenish 3).batchNumber = strip (attemptAt exReplenish 0).batchNumber) ∧
    ∀ e ∈ scanRecs exReplenish 4, 4 ≤ e.startIdx :=
  resolved_episode_emits_single_event exReplenish 0 3 (by decide) (by decide) (by decide)
    (by decide) (by decide) (by decide) (by decide) (by decide)

/-- Counterexample to claim C2 as stated: `exAllFail` is a 3-attempt episode
with no subsequent success, yet the detector records nothing — no Halt
event. -/
theorem unresolved_run_yields_no_event_cex :
    exAllFail.length = 3 ∧ (∀ a ∈ exAllFail, a.result ≠ 0) ∧
    detect exAllFail = [] := by
  decide

/-- Claim C2 (amended): an episode with no resolving success is dropped, not
recorded as a Halt: once the scan reaches a cursor from which every remaining
attempt fails, it emits no further event; in particular an all-failure
sequence yields an empty event list. -/
theorem no_pass_suffix_emits_nothing (g : List Attempt) (i : Nat)
    (hall : ∀ k, k < g.length → i ≤ k → (attemptAt g k).result ≠ 0) :
    scanRecs g i = [] :=
  scanRecs_all_fail_aux g g.length i (by omega) fun k hk hk2 => hall k hk2 hk

/-- Witness for the amended C2 at the concrete all-failure sequence. -/
theorem no_pass_suffix_emits_nothing_witness : scanRecs exAllFail 0 = [] :=
  no_pass_suffix_emits_nothing exAllFail 0 (by decide)

/-- Counterexample to claim C3 as stated: two attempts with the same part
number but different board-position references are analyzed in one and the
same sequence (the source groups by `PartNumber`), and the grouping matters:
the part-number group yields an event while neither reference group does. -/
theorem grouping_key_cex :
    rowRefC1 ∈ groupForPart rowsMixedRef "P1" ∧
    rowRefC2 ∈ groupForPart rowsMixedRef "P1" ∧
    rowRefC1.partNumber = rowRefC2.partNumber ∧
    rowRefC1.reference ≠ rowRefC2.reference ∧
    detect (groupForPart rowsMixedRef "P1") ≠ [] ∧
    detect (groupForReferenceSpec rowsMixedRef "C1") = [] ∧
    detect (groupForReferenceSpec rowsMixedRef "C2") = [] := by
  decide

/-- Claim C3 (amended): attempts are grouped for episode detection by the
`PartNumber` column (the part/catalog number), not by the board-position
`Reference`: a row belongs to the analyzed group of a key exactly when its
part number equals the key, whatever its reference. -/
theorem grouping_by_part_number (rows : List Attempt) (key : String) (a : Attempt) :
    a ∈ groupForPart rows key ↔ a ∈ rows ∧ a.partNumber = key := by
  simp [groupForPart]

/-- Counterexample to claim C4 as stated: a raw row with every identity cell
present but a missing outcome cell is discarded by `dropna()`, not retained
with outcome 0. -/
theorem missing_outcome_row_dropped_cex :
    rowMissingOutcome.partNumber ≠ none ∧ rowMissingOutcome.description ≠ none ∧
    rowMissingOutcome.reference ≠ none ∧ rowMissingOutcome.batchNumber ≠ none ∧
    buildAttempt rowMissingOutcome = none := by
  decide

/-- Claim C4 (amended): a present but non-numeric outcome cell is coerced to
integer 0 and the row is retained; a row is discarded exactly when any of the
five used cells — the identity cells or the outcome cell itself — is
missing. -/
theorem outcome_coercion_and_drop :
    (∀ p d rf b s, toNumericInt s = none →
      buildAttempt ⟨some p, some d, some rf, some b, some s⟩ =
        some ⟨p, d, rf, b, 0⟩) ∧
    ∀ r : RawRow, buildAttempt r = none ↔
      (r.partNumber = none ∨ r.description = none ∨ r.reference = none ∨
        r.batchNumber = none ∨ r.result = none) := by
  constructor
  · intro p d rf b s hs
    simp [buildAttempt, hs]
  · intro r
    rcases r with ⟨p, d, rf, b, res⟩
    cases p <;> cases d <;> cases rf <;> cases b <;> cases res <;> simp [buildAttempt]

/-- Witness for the amended C4: the non-numeric outcome cell `"N/A"` is
retained as outcome 0. -/
theorem outcome_coercion_and_drop_witness :
    buildAttempt ⟨some "P1", some "Cap 100nF", some "C7", some "B1", some "N/A"⟩ =
      some ⟨"P1", "Cap 100nF", "C7", "B1", 0⟩ :=
  outcome_coercion_and_drop.1 "P1" "Cap 100nF" "C7" "B1" "N/A" (by decide)

/-- Claim C5: two sequences whose attempts agree on every field the detector
reads, with batch identifiers equal after trimming leading/trailing
whitespace, produce identical event lists — so whitespace differences never
change a Halt into a Replenishment. -/
theorem batch_whitespace_invariance (g1 g2 : List Attempt)
    (hlen : g1.length = g2.length)
    (heq : ∀ k, k < g1.length → WsEquiv (attemptAt g1 k) (attemptAt g2 k)) :
    detect g1 = detect g2 := by
  unfold detect detectRecs
  rw [scanRecs_congr_aux g1 g2 hlen heq g1.length 0 (by omega)]

/-- Witness for C5: the whitespace-padded copy of the Halt sequence yields the
same (Halt) event list. -/
theorem batch_whitespace_invariance_witness :
    detect exHaltPadded = detect exHalt ∧
    detect exHalt = [⟨EventKind.halt, "P1", "Cap 100nF", "C7", "B1",
      "Rejected by vision before electrical test"⟩] :=
  ⟨batch_whitespace_invariance exHaltPadded exHalt (by decide) (by decide), by decide⟩

/-- Claim C6: the detector emits at most `⌊n/3⌋` events for a sequence of
length `n`. -/
theorem events_le_third (g : List Attempt) :
    (detect g).length ≤ g.length / 3 := by
  have h4 := scanRecs_length_le_aux g g.length 0 (by omega)
  have hd : (detect g).length = (scanRecs g 0).length := by
    simp [detect, detectRecs]
  rw [hd]
  omega

/-- Claim C7: the index ranges `[startIdx, resolveIdx]` consumed by any two
emitted episodes are disjoint — the resolving index of each earlier episode lies
strictly before the start of each later episode, so consumed indices are never
re-examined as the start of a new episode and a long failing run yields a
single episode. -/
theorem episodes_disjoint (g : List Attempt) :
    (detectRecs g).Pairwise (fun e1 e2 => e1.resolveIdx < e2.startIdx) :=
  scanRecs_pairwise_aux g g.length 0 (by omega)

/-- Claim C8: the detector is a total function, and any sequence with fewer
than 3 attempts (the empty one included) yields an empty event list. -/
theorem short_sequence_no_events (g : List Attempt) (h : g.length < 3) :
    detect g = [] := by
  unfold detect detectRecs
  rw [scanRecs_stop (by omega)]
  rfl

/-- Witness for C8 at the empty sequence and at a 2-attempt sequence. -/
theorem short_sequence_no_events_witness :
    detect ([] : List Attempt) = [] ∧ detect [failB1, failB1] = [] :=
  ⟨short_sequence_no_events [] (by decide),
    short_sequence_no_events [failB1, failB1] (by decide)⟩

/-- Claim C9: any nonzero outcome code counts as a failure — the window test
is `Result != 0` — so an episode whose first failing attempt carries a code
outside the known table (here an arbitrary `c` with
`failure_meanings c = none`) is still emitted, and its dominant failure
meaning is the fallback label Unknown failure. -/
theorem unknown_failure_code_episode (g : List Attempt) (i j : Nat) (c : Int)
    (h3 : i + 3 ≤ g.length)
    (hc : (attemptAt g i).result = c) (hc0 : c ≠ 0)
    (hunk : failure_meanings c = none)
    (hf2 : (attemptAt g (i + 1)).result ≠ 0) (hf3 : (attemptAt g (i + 2)).result ≠ 0)
    (hjlt : j < g.length) (hij : i + 3 ≤ j)
    (hpass : (attemptAt g j).result = 0)
    (hfirst : ∀ k, k < j → i + 3 ≤ k → (attemptAt g k).result ≠ 0) :
    scanRecs g i = mkEpisodeRec g i j :: scanRecs g (j + 1) ∧
    (mkEpisodeRec g i j).event.mainFailType = "Unknown failure" := by
  have hf1 : (attemptAt g i).result ≠ 0 := by
    rw [hc]
    exact hc0
  have hjfind : findPassFrom g (i + 3) = some j :=
    findPassFrom_complete hjlt hij hpass fun k hk hik => hfirst k hk hik
  refine ⟨scanRecs_emit h3 ⟨hf1, hf2, hf3⟩ hjfind, ?_⟩
  rw [mkEpisodeRec_mainFailType, hc]
  unfold mainFailLabel
  rw [hunk]
  rfl

/-- Witness for C9 at the concrete sequence whose first failure carries the
unknown code 9. -/
theorem unknown_failure_code_episode_witness :
    scanRecs exUnknownCode 0 = mkEpisodeRec exUnknownCode 0 3 :: scanRecs exUnknownCode 4 ∧
    (mkEpisodeRec exUnknownCode 0 3).event.mainFailType = "Unknown failure" :=
  unknown_failure_code_episode exUnknownCode 0 3 9 (by decide) (by decide) (by decide)
    (by decide) (by decide) (by decide) (by decide) (by decide) (by decide) (by decide)

/-- Claim C10: every emitted event consumes at least 4 attempts — its
3-failure window plus a resolving successful attempt, which always exists —
and hence the number of emitted events is at most `⌊n/4⌋`, tighter than the
`⌊n/3⌋` bound the spec states. -/
theorem event_consumes_at_least_four (g : List Attempt) (e : EpisodeRec)
    (he : e ∈ detectRecs g) :
    e.startIdx + 3 ≤ e.resolveIdx ∧ e.resolveIdx < g.length ∧
    (attemptAt g e.resolveIdx).result = 0 ∧
    (detect g).length ≤ g.length / 4 := by
  have h := mem_scanRecs he
  have hlen := scanRecs_length_le_aux g g.length 0 (by omega)
  have hd : (detect g).length = (scanRecs g 0).length := by
    simp [detect, detectRecs]
  exact ⟨h.2.1, h.2.2.1, h.2.2.2, by omega⟩

/-- Witness for C10 at the concrete resolved-episode sequence. -/
theorem event_consumes_at_least_four_witness :
    (mkEpisodeRec exReplenish 0 3).startIdx + 3 ≤ (mkEpisodeRec exReplenish 0 3).resolveIdx ∧
    (mkEpisodeRec exReplenish 0 3).resolveIdx < exReplenish.length ∧
    (attemptAt exReplenish (mkEpisodeRec exReplenish 0 3).resolveIdx).result = 0 ∧
    (detect exReplenish).length ≤ exReplenish.length / 4 :=
  event_consumes_at_least_four exReplenish (mkEpisodeRec exReplenish 0 3) (by decide)

end PCBLog
